import Mathlib

/-!
# Verification of the STM32-DS18B20 1-Wire driver core

Shallow embedding of `Src/ds18b20.c` (DS18B20 1-Wire bus driver):
the ROM search engine (`searchNext`, `searchDevices`, `DS18B20_Search`),
the CRC-8 validator (`crcGenerator`, `addressValid`), and the temperature
read path (`DS18B20_GetTemp`).

The electrical bus is abstracted the way the driver itself observes it:

* a reset-and-presence primitive (`DS18B20_Start`) reports a `Bool`;
* during a search cycle the two single-bit reads at each position are a
  function of the bits the master has written onto the bus so far in this
  cycle (an `Oracle`);
* a bus populated with concrete devices (`deviceOracle`) answers those
  reads with the open-drain AND of the participating devices' bits.

Machine integers are `Nat` with explicit truncation (`% 256`) exactly where
the C stores into a `uint8_t`; the `int8_t` field `last_zero_branch` is an
`Int` (C compares it against the loop counter after integer promotion).
-/

namespace DS18B20

/-- During one search cycle the two reads at the current bit position are a
function of the bits written onto the bus so far in this cycle.  The first
component is the read of the bit, the second the read of its complement
(`true` = line high). -/
abbrev Oracle := List Bool → Bool × Bool

/-- `onewire_search_state_t` (ds18b20.h): `int8_t last_zero_branch`,
`bool done`, `uint8_t address[8]` (one byte per list entry, LSB-first). -/
structure OWState where
  last_zero_branch : Int
  done : Bool
  address : List Nat
  deriving DecidableEq, Repr

/-- `onewireSearchInit`: `last_zero_branch = -1`, `done = false`,
address zero-filled. -/
def onewireSearchInit : OWState :=
  { last_zero_branch := -1, done := false, address := List.replicate 8 0 }

/-- Bit `pos` of the address buffer, as the C indexes it:
byte `pos / 8`, bit `pos % 8`. -/
def addrBit (addr : List Nat) (pos : Nat) : Bool :=
  Nat.testBit (addr.getD (pos / 8) 0) (pos % 8)

/-- The numeric 64-bit value held in the address buffer (LSB-first bytes,
as `onewire_search_state_t.address` stores it). -/
def addrVal (addr : List Nat) : Nat :=
  (List.range 8).foldl (fun acc i => acc + addr.getD i 0 * 2 ^ (8 * i)) 0

/-- Mid-cycle configuration of `searchNext`'s 64-iteration loop:
the address buffer, the local variable `locallast_zero_branch`, and the
bits chosen and written to the bus so far (so the current `bitPosition`
is `path.length`). -/
structure CycleCfg where
  addr : List Nat
  loc : Int
  path : List Bool
  deriving DecidableEq, Repr

/-- One iteration of the loop body of `searchNext` (ds18b20.c:297-370).
`lzb` is `state->last_zero_branch`, fixed during the cycle.  `none` is the
`return false` taken when both reads come back high (reading `0b11`).

The C is transcribed operation for operation, including the quirks:

* in the replay branch (`bitPosition < state->last_zero_branch`) the C
  assigns the *masked byte* `state->address[byteIndex] & (1 << bitIndex)`
  to `bitValue`, not a normalized 0/1;
* the store for a nonzero `bitValue` is
  `state->address[byteIndex] |= (bitValue << bitIndex)` truncated to the
  `uint8_t` it is stored into (`% 256`). -/
def searchStep (oracle : Oracle) (lzb : Int) (c : CycleCfg) : Option CycleCfg :=
  let r := oracle c.path
  let reading : Nat := (if r.1 then 1 else 0) + (if r.2 then 2 else 0)
  if reading = 3 then none
  else
    let pos := c.path.length
    let byteIndex := pos / 8
    let bitIndex := pos % 8
    let bitValue : Nat :=
      if reading = 0 then
        if (pos : Int) = lzb then 1
        else if (pos : Int) < lzb then (c.addr.getD byteIndex 0) &&& (1 <<< bitIndex)
        else 0
      else reading &&& 1
    let loc' : Int := if reading = 0 ∧ bitValue = 0 then (pos : Int) else c.loc
    let addr' :=
      if bitValue = 0 then
        c.addr.set byteIndex ((c.addr.getD byteIndex 0) &&& (255 ^^^ (1 <<< bitIndex)))
      else
        c.addr.set byteIndex (((c.addr.getD byteIndex 0) ||| (bitValue <<< bitIndex)) % 256)
    some { addr := addr', loc := loc', path := c.path ++ [bitValue != 0] }

/-- Result of running the 64-bit loop: either the `return false` on a bus
fault (carrying the partially rewritten address buffer, mutated in place
through the state pointer), or the completed configuration. -/
inductive CycleRes where
  | fault (c : CycleCfg)
  | complete (c : CycleCfg)
  deriving DecidableEq, Repr

/-- Run `n` remaining iterations of the `searchNext` loop. -/
def searchRun (oracle : Oracle) (lzb : Int) : Nat → CycleCfg → CycleRes
  | 0, c => .complete c
  | n + 1, c =>
    match searchStep oracle lzb c with
    | none => .fault c
    | some c' => searchRun oracle lzb n c'

/-- `searchNext` (ds18b20.c:280-385).  Returns the C return value paired
with the updated state.  Note the C returns `false` (= 0) on a bus fault
and `0` on success.  On completion, if no zero branch was recorded the
search is marked done, otherwise `last_zero_branch` is updated. -/
def searchNext (oracle : Oracle) (st : OWState) : Nat × OWState :=
  match searchRun oracle st.last_zero_branch 64 { addr := st.address, loc := -1, path := [] } with
  | .fault c => (0, { st with address := c.addr })
  | .complete c =>
    if c.loc = -1 then (0, { st with address := c.addr, done := true })
    else (0, { st with address := c.addr, last_zero_branch := c.loc })

/-- What the protocol layers observe of a bus: the result of the
reset-and-presence primitive `DS18B20_Start`, and the per-bit reads during
a search cycle. -/
structure Bus where
  presence : Bool
  oracle : Oracle

/-- `searchDevices` (ds18b20.c:388-403).  Returns
`(return value, updated state, whether the SEARCH_ROM command byte was
written to the bus)`.  Bails out with 1 if the previous search finished or
no presence pulse was detected; otherwise writes the command byte and
returns `searchNext`'s result. -/
def searchDevices (bus : Bus) (st : OWState) : Nat × OWState × Bool :=
  if st.done || !bus.presence then (1, st, false)
  else
    let r := searchNext bus.oracle st
    (r.1, r.2, true)

/-- `true` when device `d` (a 64-bit address, bit `i` = `d.testBit i`) is
still participating in the cycle: every bit the master has written so far
matched the device's address.  `i` is the position of the first entry of
`path`. -/
def matchesPath (d : Nat) : List Bool → Nat → Bool
  | [], _ => true
  | b :: rest, i => (d.testBit i == b) && matchesPath d rest (i + 1)

/-- A simulated bus populated with `devices` (distinct 64-bit addresses).
Open-drain wired-AND: a read slot returns high iff no participating device
pulls the line low.  The bit read is high iff every participant's address
bit is 1; the complement read is high iff every participant's address bit
is 0.  With no participants both reads are high (the `0b11` fault). -/
def deviceOracle (devices : List Nat) : Oracle := fun path =>
  let s := devices.filter (fun d => matchesPath d path 0)
  (decide (∀ d ∈ s, d.testBit path.length), decide (∀ d ∈ s, !d.testBit path.length))

/-- A bus populated with `devices`: the reset gets a presence pulse iff at
least one device is present. -/
def deviceBus (devices : List Nat) : Bus :=
  { presence := !devices.isEmpty, oracle := deviceOracle devices }

/-- The search state after `n` calls of `searchDevices` threading the same
state, starting from the freshly initialized state. -/
def afterCycles (bus : Bus) : Nat → OWState
  | 0 => onewireSearchInit
  | n + 1 => (searchDevices bus (afterCycles bus n)).2.1

/-- The precomputed CRC-8 table of `crcGenerator` (ds18b20.c:412-428),
entry for entry. -/
def crc8_table : List Nat :=
  [0x00, 0x5E, 0xBC, 0xE2, 0x61, 0x3F, 0xDD, 0x83, 0xC2, 0x9C, 0x7E, 0x20, 0xA3, 0xFD, 0x1F, 0x41,
   0x9D, 0xC3, 0x21, 0x7F, 0xFC, 0xA2, 0x40, 0x1E, 0x5F, 0x01, 0xE3, 0xBD, 0x3E, 0x60, 0x82, 0xDC,
   0x23, 0x7D, 0x9F, 0xC1, 0x42, 0x1C, 0xFE, 0xA0, 0xE1, 0xBF, 0x5D, 0x03, 0x80, 0xDE, 0x3C, 0x62,
   0xBE, 0xE0, 0x02, 0x5C, 0xDF, 0x81, 0x63, 0x3D, 0x7C, 0x22, 0xC0, 0x9E, 0x1D, 0x43, 0xA1, 0xFF,
   0x46, 0x18, 0xFA, 0xA4, 0x27, 0x79, 0x9B, 0xC5, 0x84, 0xDA, 0x38, 0x66, 0xE5, 0xBB, 0x59, 0x07,
   0xDB, 0x85, 0x67, 0x39, 0xBA, 0xE4, 0x06, 0x58, 0x19, 0x47, 0xA5, 0xFB, 0x78, 0x26, 0xC4, 0x9A,
   0x65, 0x3B, 0xD9, 0x87, 0x04, 0x5A, 0xB8, 0xE6, 0xA7, 0xF9, 0x1B, 0x45, 0xC6, 0x98, 0x7A, 0x24,
   0xF8, 0xA6, 0x44, 0x1A, 0x99, 0xC7, 0x25, 0x7B, 0x3A, 0x64, 0x86, 0xD8, 0x5B, 0x05, 0xE7, 0xB9,
   0x8C, 0xD2, 0x30, 0x6E, 0xED, 0xB3, 0x51, 0x0F, 0x4E, 0x10, 0xF2, 0xAC, 0x2F, 0x71, 0x93, 0xCD,
   0x11, 0x4F, 0xAD, 0xF3, 0x70, 0x2E, 0xCC, 0x92, 0xD3, 0x8D, 0x6F, 0x31, 0xB2, 0xEC, 0x0E, 0x50,
   0xAF, 0xF1, 0x13, 0x4D, 0xCE, 0x90, 0x72, 0x2C, 0x6D, 0x33, 0xD1, 0x8F, 0x0C, 0x52, 0xB0, 0xEE,
   0x32, 0x6C, 0x8E, 0xD0, 0x53, 0x0D, 0xEF, 0xB1, 0xF0, 0xAE, 0x4C, 0x12, 0x91, 0xCF, 0x2D, 0x73,
   0xCA, 0x94, 0x76, 0x28, 0xAB, 0xF5, 0x17, 0x49, 0x08, 0x56, 0xB4, 0xEA, 0x69, 0x37, 0xD5, 0x8B,
   0x57, 0x09, 0xEB, 0xB5, 0x36, 0x68, 0x8A, 0xD4, 0x95, 0xCB, 0x29, 0x77, 0xF4, 0xAA, 0x48, 0x16,
   0xE9, 0xB7, 0x55, 0x0B, 0x88, 0xD6, 0x34, 0x6A, 0x2B, 0x75, 0x97, 0xC9, 0x4A, 0x14, 0xF6, 0xA8,
   0x74, 0x2A, 0xC8, 0x96, 0x15, 0x4B, 0xA9, 0xF7, 0xB6, 0xE8, 0x0A, 0x54, 0xD7, 0x89, 0x6B, 0x35]

/-- `crcGenerator` (ds18b20.c:406-439): one table-driven CRC step,
`crc8_table[input ^ initial_crc]` (both arguments are `uint8_t`). -/
def crcGenerator (initial_crc input : Nat) : Nat :=
  crc8_table.getD (input ^^^ initial_crc) 0

/-- Spec-side reference for claim C7, following the spec's words: the
bit-by-bit Dallas/Maxim 1-Wire CRC-8 single-bit step (reflected polynomial
`x^8 + x^5 + x^4 + 1`): shift right one bit, XOR-ing in `0x8C` when the
bit shifted out was 1.  The source contains only the table-driven form. -/
def crc8BitStep (crc : Nat) : Nat :=
  if crc % 2 = 1 then (crc / 2) ^^^ 0x8C else crc / 2

/-- Spec-side reference for claim C7: the bit-by-bit Dallas/Maxim 1-Wire
CRC-8 of one byte folded into an accumulator — XOR the byte into the CRC,
then perform eight single-bit steps. -/
def crc8BitwiseSpec (crc b : Nat) : Nat :=
  crc8BitStep^[8] (crc ^^^ b)

/-- `addressValid` (ds18b20.c:442-466): fold `crcGenerator` over bytes 0-6
starting from 0 and compare with byte 7; returns 0 if they match, 1
otherwise. -/
def addressValid (ROM_code : List Nat) : Nat :=
  if (List.range 7).foldl (fun crc i => crcGenerator crc (ROM_code.getD i 0)) 0
      ≠ ROM_code.getD 7 0 then 1 else 0

/-- The 64-bit MSB-first packing the source's comment
(`// ROM codes are stored MSB first`) and the spec describe: byte 0 of the
address buffer lands in the most significant byte of the `uint64_t`. -/
def packSpec (addr : List Nat) : Nat :=
  (List.range 8).foldl (fun acc i => acc + addr.getD i 0 * 2 ^ (8 * (7 - i))) 0

/-- Model of the packing loop of `DS18B20_Search` (ds18b20.c:578-584),
`ROM_codes_array[index] |= search_state.address[i] << 8*(7-i)`.  The
`uint8_t` byte is promoted to `int` (32 bits) before the shift, so the
shift counts 56, 48, 40 and 32 used for bytes 0-3 are out of range for the
promoted type: undefined behaviour in C.  On the ARM target a register
shift by 32 or more produces 0, which is how those iterations are modelled
here; the in-range shifts (bytes 4-7) are exact as long as the shifted
value stays below 2^31 (byte 4 below 0x80), which holds at every input the
theorems below use. -/
def packCode (addr : List Nat) : Nat :=
  (List.range 8).foldl
    (fun acc i => if 8 * (7 - i) < 32 then acc ||| (addr.getD i 0 <<< (8 * (7 - i))) else acc) 0

/-- One iteration of the `while (searchDevices(...))` loop of
`DS18B20_Search` needs the stored `uint64_t`; outcome of a full call. -/
structure SearchRun where
  retval : Nat
  writes : List (Nat × Nat)
  cmds : Nat
  deriving DecidableEq, Repr

/-- The `while (searchDevices(sensor, SEARCH_ROM, &search_state))` loop of
`DS18B20_Search` (ds18b20.c:572-604), transcribed as C executes it: the
loop body runs while `searchDevices` returns *nonzero*, each body
iteration packs `search_state.address` into `ROM_codes_array[index]` and
increments the `uint8_t` index.  `writes` records `(index, value)` for
every store into the caller's array, `cmds` counts how often the
SEARCH_ROM command byte was written to the bus.  `none` means the loop has
not terminated within `fuel` iterations. -/
def searchLoopM (bus : Bus) : Nat → OWState → Nat → List (Nat × Nat) → Nat → Option SearchRun
  | 0, _, _, _, _ => none
  | fuel + 1, st, idx, ws, cs =>
    let r := searchDevices bus st
    let cs' := cs + (if r.2.2 then 1 else 0)
    if r.1 ≠ 0 then
      searchLoopM bus fuel r.2.1 ((idx + 1) % 256) (ws ++ [(idx, packCode r.2.1.address)]) cs'
    else
      some { retval := 0, writes := ws, cmds := cs' }

/-- `DS18B20_Search` (ds18b20.c:553-607): initialize a fresh search state
and run the loop; the C function ends with `return 0`. -/
def DS18B20_Search (bus : Bus) (fuel : Nat) : Option SearchRun :=
  searchLoopM bus fuel onewireSearchInit 0 [] 0

/-- The temperature value `DS18B20_GetTemp` computes from the two
scratchpad bytes (ds18b20.c:717-725, low byte read first):
`(((Temperature_byte_2 << 8)) | Temperature_byte_1) >> 4` — an unsigned
shift on a non-negative `int`, then stored into a `uint16_t`. -/
def storedTemp (lo hi : Nat) : Nat :=
  ((hi <<< 8) ||| lo) >>> 4

/-- The 16-bit two's-complement reading of a raw scratchpad word. -/
def toSigned16 (n : Nat) : Int :=
  if n < 32768 then (n : Int) else (n : Int) - 65536

/-- The signed (arithmetic, sign-preserving) right shift by 4 the spec
describes: floor division of the signed value by 16. -/
def arithShiftR4 (x : Int) : Int :=
  Int.fdiv x 16

/-- The `while (ROM_codes_array[count] != 0)` loop of `DS18B20_GetTemp`
(ds18b20.c:691-731).  `presence` is the result of the two `DS18B20_Start`
resets — the C discards it, so it does not occur on the right-hand side:
the body always runs the MATCH_ROM / CONVERT_T / READ_SCRATCHPAD sequence
and stores a temperature.  `scratch count` gives the two bytes read back
for the `count`-th device (low byte first); on a bus where nothing pulls
the line low every read returns high, i.e. `(255, 255)`.  Returns the
list of `(count, temperature)` stores into the caller's array. -/
def getTempLoop (presence : Bool) (scratch : Nat → Nat × Nat) (roms : List Nat) :
    Nat → Nat → List (Nat × Nat)
  | 0, _ => []
  | fuel + 1, count =>
    if roms.getD count 0 ≠ 0 then
      (count, storedTemp (scratch count).1 (scratch count).2)
        :: getTempLoop presence scratch roms fuel (count + 1)
    else []

/-- `DS18B20_GetTemp` over a zero-terminated address list: enough fuel for
the loop to reach the terminator (or run off the end of the list, where
the model reads 0). -/
def DS18B20_GetTemp (presence : Bool) (scratch : Nat → Nat × Nat) (roms : List Nat) :
    List (Nat × Nat) :=
  getTempLoop presence scratch roms (roms.length + 1) 0

/-! ## Helper lemmas -/

/-- Both exits of `searchNext` return 0: the `return false` on a bus fault
and the `return 0` after a completed cycle produce the same value. -/
theorem searchNext_fst (o : Oracle) (st : OWState) : (searchNext o st).1 = 0 := by
  unfold searchNext
  cases searchRun o st.last_zero_branch 64 { addr := st.address, loc := -1, path := [] } with
  | fault c => rfl
  | complete c =>
    by_cases h : c.loc = -1 <;> simp [h]

/-- Clearing a bit inside a byte (`address[byteIndex] &= ~(1 << k)`, with
the complement truncated to the `uint8_t` width): bit `j` survives iff it
was set and is not bit `k`. -/
theorem testBit_clear_byte (x k j : Nat) (hj : j < 8) :
    Nat.testBit (x &&& (255 ^^^ (1 <<< k))) j = (Nat.testBit x j && !decide (k = j)) := by
  have h255 : (255 : Nat) = 2 ^ 8 - 1 := rfl
  rw [Nat.one_shiftLeft, Nat.testBit_and, Nat.testBit_xor, h255,
    Nat.testBit_two_pow_sub_one, Nat.testBit_two_pow]
  simp [hj]

/-- Setting bits inside a byte (`address[byteIndex] |= (v << k)` stored
into a `uint8_t`): bit `j < 8` of the result. -/
theorem testBit_or_byte (x v k j : Nat) (hj : j < 8) :
    Nat.testBit ((x ||| (v <<< k)) % 256) j
      = (Nat.testBit x j || (decide (k ≤ j) && Nat.testBit v (j - k))) := by
  have h256 : (256 : Nat) = 2 ^ 8 := rfl
  rw [h256, Nat.testBit_mod_two_pow, Nat.testBit_or, Nat.testBit_shiftLeft]
  simp [hj, ge_iff_le]

/-- Reading a bit of the address buffer after one byte was replaced. -/
theorem addrBit_set (addr : List Nat) (bi v i : Nat) (hbi : bi < addr.length) :
    addrBit (addr.set bi v) i
      = if i / 8 = bi then Nat.testBit v (i % 8) else addrBit addr i := by
  unfold addrBit
  by_cases h : i / 8 = bi
  · subst h
    rw [List.getD_eq_getElem?_getD, List.getElem?_set_self (by simpa using hbi),
      if_pos rfl]
    rfl
  · rw [List.getD_eq_getElem?_getD, List.getElem?_set_ne (fun hne => h hne.symm),
      if_neg h, List.getD_eq_getElem?_getD]

/-- Characterization of one non-faulting iteration of the `searchNext`
loop: the address buffer keeps its length, the path is extended by the bit
that was written to the bus, that bit is now stored at the current
position of the address buffer, and the bits at all earlier positions are
unchanged. -/
theorem searchStep_some (oracle : Oracle) (lzb : Int) (c c' : CycleCfg)
    (h8 : c.addr.length = 8) (hlen : c.path.length < 64)
    (hstep : searchStep oracle lzb c = some c') :
    c'.addr.length = 8 ∧
    (∃ b : Bool, c'.path = c.path ++ [b] ∧ addrBit c'.addr c.path.length = b) ∧
    (∀ i, i < c.path.length → addrBit c'.addr i = addrBit c.addr i) := by
  have hbi : c.path.length / 8 < c.addr.length := by omega
  simp only [searchStep] at hstep
  set r := oracle c.path with hr
  set reading : Nat := (if r.1 then 1 else 0) + (if r.2 then 2 else 0) with hreading
  by_cases h3 : reading = 3
  · simp [h3] at hstep
  · rw [if_neg h3] at hstep
    set pos := c.path.length with hpos
    set bv : Nat :=
      (if reading = 0 then
        if (pos : Int) = lzb then 1
        else if (pos : Int) < lzb then (c.addr.getD (pos / 8) 0) &&& (1 <<< (pos % 8))
        else 0
      else reading &&& 1) with hbv
    have hbit0 : bv ≠ 0 →
        Nat.testBit ((c.addr.getD (pos / 8) 0 ||| bv <<< (pos % 8)) % 256) (pos % 8) = true := by
      intro hne
      rw [testBit_or_byte _ _ _ _ (by omega : pos % 8 < 8), Bool.or_eq_true]
      rw [hbv] at hne
      by_cases hzero : reading = 0
      · rw [if_pos hzero] at hne
        by_cases heq : (pos : Int) = lzb
        · right; simp [hbv, hzero, heq]
        · rw [if_neg heq] at hne
          by_cases hlt : (pos : Int) < lzb
          · rw [if_pos hlt] at hne
            left
            rw [Nat.one_shiftLeft, Nat.and_two_pow] at hne
            rcases h : Nat.testBit (c.addr.getD (pos / 8) 0) (pos % 8) with _ | _
            · rw [h] at hne; simp at hne
            · rfl
          · rw [if_neg hlt] at hne; simp at hne
      · rw [if_neg hzero] at hne
        right
        have h1 : reading &&& 1 = (Nat.testBit reading 0).toNat := by
          simpa using Nat.and_two_pow reading 0
        rw [h1] at hne
        rcases h : Nat.testBit reading 0 with _ | _
        · rw [h] at hne; simp at hne
        · simp [hbv, hzero, h1, h]
    rcases Option.some.inj hstep with rfl
    refine ⟨by by_cases hz : bv = 0 <;> simp [hz, h8], ⟨bv != 0, rfl, ?_⟩, ?_⟩
    · dsimp only
      by_cases hz : bv = 0
      · rw [if_pos hz, addrBit_set _ _ _ _ hbi, if_pos rfl,
          testBit_clear_byte _ _ _ (by omega)]
        simp [hz]
      · rw [if_neg hz, addrBit_set _ _ _ _ hbi, if_pos rfl, hbit0 hz]
        simp [hz]
    · intro i hi
      dsimp only
      have hj8 : i % 8 < 8 := by omega
      by_cases hsame : i / 8 = pos / 8
      · have hjlt : i % 8 < pos % 8 := by omega
        by_cases hz : bv = 0
        · rw [if_pos hz, addrBit_set _ _ _ _ hbi, if_pos hsame,
            testBit_clear_byte _ _ _ hj8]
          have hd : decide (pos % 8 = i % 8) = false := by
            simp only [decide_eq_false_iff_not]
            omega
          rw [hd]
          unfold addrBit
          rw [hsame]
          simp
        · rw [if_neg hz, addrBit_set _ _ _ _ hbi, if_pos hsame,
            testBit_or_byte _ _ _ _ hj8]
          have hd : decide (pos % 8 ≤ i % 8) = false := by
            simp only [decide_eq_false_iff_not]
            omega
          rw [hd]
          unfold addrBit
          rw [hsame]
          simp
      · by_cases hz : bv = 0
        · rw [if_pos hz, addrBit_set _ _ _ _ hbi, if_neg hsame]
        · rw [if_neg hz, addrBit_set _ _ _ _ hbi, if_neg hsame]

/-- The value the C assigns to `bitValue` in the `kConflict` arm, as a
function of the previous cycle's branch point, the address buffer and the
position (ds18b20.c:319-336). -/
def conflictBV (lzb : Int) (addr : List Nat) (pos : Nat) : Nat :=
  if (pos : Int) = lzb then 1
  else if (pos : Int) < lzb then (addr.getD (pos / 8) 0) &&& (1 <<< (pos % 8))
  else 0

/-- The bit the conflict arm writes to the bus (`bitValue` tested against
zero), expressed as the claim states it: 1 at the previous branch point,
the bit already held in the address buffer before it, 0 after it. -/
theorem conflictBV_bne (lzb : Int) (addr : List Nat) (pos : Nat) :
    (conflictBV lzb addr pos != 0)
      = (if (pos : Int) = lzb then true
         else if (pos : Int) < lzb then addrBit addr pos
         else false) := by
  unfold conflictBV addrBit
  by_cases heq : (pos : Int) = lzb
  · simp [heq]
  · by_cases hlt : (pos : Int) < lzb
    · rw [if_neg heq, if_neg heq, if_pos hlt, if_pos hlt,
        Nat.one_shiftLeft, Nat.and_two_pow]
      rcases h : Nat.testBit (addr.getD (pos / 8) 0) (pos % 8) with _ | _ <;> simp
    · simp [heq, hlt]

/-- Setting the current bit with a nonzero `bitValue` of the shape the C
produces (the literal 1 or the masked byte) leaves the bit set, despite
the store being `|= bitValue << bitIndex` rather than `|= 1 << bitIndex`. -/
theorem testBit_or_self_byte (x v k : Nat) (hk : k < 8)
    (hv : v = 1 ∨ v = x &&& (1 <<< k)) (hne : v ≠ 0) :
    Nat.testBit ((x ||| v <<< k) % 256) k = true := by
  rw [testBit_or_byte _ _ _ _ hk, Bool.or_eq_true]
  rcases hv with rfl | rfl
  · right; simp
  · left
    rw [Nat.one_shiftLeft, Nat.and_two_pow] at hne
    rcases h : Nat.testBit x k with _ | _
    · rw [h] at hne; simp at hne
    · rfl

/-- Behaviour of one `searchNext` iteration at a position where the two
reads signal a conflict (both low): the step succeeds, the bit chosen and
written to the bus follows the claim's rule relative to the previous
cycle's `last_zero_branch`, the local branch candidate is updated exactly
when 0 was chosen, and the chosen bit is stored at the current position of
the address buffer. -/
theorem searchStep_conflict (oracle : Oracle) (lzb loc0 : Int) (addr0 : List Nat)
    (path0 : List Bool) (h8 : addr0.length = 8) (hlen : path0.length < 64)
    (hconf : oracle path0 = (false, false)) :
    ∃ (b : Bool) (c' : CycleCfg),
      searchStep oracle lzb { addr := addr0, loc := loc0, path := path0 } = some c' ∧
      b = (if (path0.length : Int) = lzb then true
           else if (path0.length : Int) < lzb then addrBit addr0 path0.length
           else false) ∧
      c'.path = path0 ++ [b] ∧
      c'.loc = (if b then loc0 else (path0.length : Int)) ∧
      addrBit c'.addr path0.length = b := by
  have hbi : path0.length / 8 < addr0.length := by omega
  have hk8 : path0.length % 8 < 8 := by omega
  have hstep0 : searchStep oracle lzb { addr := addr0, loc := loc0, path := path0 }
      = some { addr :=
                if conflictBV lzb addr0 path0.length = 0 then
                  addr0.set (path0.length / 8)
                    ((addr0.getD (path0.length / 8) 0) &&& (255 ^^^ (1 <<< (path0.length % 8))))
                else
                  addr0.set (path0.length / 8)
                    (((addr0.getD (path0.length / 8) 0)
                      ||| (conflictBV lzb addr0 path0.length <<< (path0.length % 8))) % 256),
               loc := if conflictBV lzb addr0 path0.length = 0
                      then (path0.length : Int) else loc0,
               path := path0 ++ [conflictBV lzb addr0 path0.length != 0] } := by
    simp [searchStep, hconf, conflictBV]
  refine ⟨conflictBV lzb addr0 path0.length != 0, _, hstep0,
    conflictBV_bne lzb addr0 path0.length, rfl, ?_, ?_⟩
  · by_cases hz : conflictBV lzb addr0 path0.length = 0 <;> simp [hz]
  · by_cases hz : conflictBV lzb addr0 path0.length = 0
    · rw [if_pos hz]
      dsimp only
      rw [addrBit_set _ _ _ _ hbi, if_pos rfl, testBit_clear_byte _ _ _ hk8]
      simp [hz]
    · rw [if_neg hz]
      dsimp only
      rw [addrBit_set _ _ _ _ hbi, if_pos rfl]
      have hv : conflictBV lzb addr0 path0.length = 1 ∨
          conflictBV lzb addr0 path0.length
            = (addr0.getD (path0.length / 8) 0) &&& (1 <<< (path0.length % 8)) := by
        unfold conflictBV
        by_cases heq : (path0.length : Int) = lzb
        · left; simp [heq]
        · by_cases hlt : (path0.length : Int) < lzb
          · right; simp [heq, hlt]
          · exfalso; apply hz; unfold conflictBV; simp [heq, hlt]
      rw [testBit_or_self_byte _ _ _ hk8 hv hz]
      simp [hz]

/-- Invariant of the completed 64-iteration loop: starting from any
configuration whose stored bits agree with its path, a completed run ends
with a 64-bit path and the address buffer holding, at every position, the
bit that was chosen and written to the bus there. -/
theorem searchRun_complete_bits (oracle : Oracle) (lzb : Int) :
    ∀ (n : Nat) (c res : CycleCfg),
      c.addr.length = 8 → c.path.length + n = 64 →
      (∀ i, i < c.path.length → addrBit c.addr i = c.path.getD i false) →
      searchRun oracle lzb n c = .complete res →
      res.path.length = 64 ∧ ∀ i, i < 64 → addrBit res.addr i = res.path.getD i false := by
  intro n
  induction n with
  | zero =>
    intro c res h8 hlen hinv hrun
    simp only [searchRun] at hrun
    cases hrun
    exact ⟨by omega, fun i hi => hinv i (by omega)⟩
  | succ n ih =>
    intro c res h8 hlen hinv hrun
    cases hs : searchStep oracle lzb c with
    | none =>
      simp only [searchRun, hs] at hrun
      cases hrun
    | some c' =>
      simp only [searchRun, hs] at hrun
      obtain ⟨h8', ⟨b, hpath, hbit⟩, hpres⟩ :=
        searchStep_some oracle lzb c c' h8 (by omega) hs
      refine ih c' res h8' (by rw [hpath]; simp; omega) ?_ hrun
      intro i hi
      rw [hpath] at hi ⊢
      simp only [List.length_append, List.length_cons, List.length_nil] at hi
      by_cases hlt2 : i < c.path.length
      · rw [hpres i hlt2, List.getD_eq_getElem?_getD, List.getElem?_append_left hlt2,
          ← List.getD_eq_getElem?_getD]
        exact hinv i hlt2
      · have hieq : i = c.path.length := by omega
        subst hieq
        rw [List.getD_eq_getElem?_getD, List.getElem?_append_right (Nat.le_refl _)]
        simpa using hbit

set_option maxRecDepth 4000 in
/-- The CRC table of the source, checked entry for entry against the
bit-by-bit Dallas/Maxim reference with initial value 0. -/
theorem crc8_table_eq_bitwise (i : Nat) (h : i < 256) :
    crc8_table.getD i 0 = crc8BitwiseSpec 0 i := by
  have hall : (List.range 256).all
      (fun j => crc8_table.getD j 0 == crc8BitwiseSpec 0 j) = true := by decide
  have hmem := List.all_eq_true.mp hall i (List.mem_range.mpr h)
  simpa using hmem

/-- One bit-by-bit CRC step keeps the accumulator a byte. -/
theorem crc8BitStep_lt (c : Nat) (h : c < 256) : crc8BitStep c < 256 := by
  unfold crc8BitStep
  by_cases h2 : c % 2 = 1
  · rw [if_pos h2]
    have := Nat.xor_lt_two_pow (n := 8) (show c / 2 < 2 ^ 8 by omega)
      (show (0x8C : Nat) < 2 ^ 8 by norm_num)
    simpa using this
  · rw [if_neg h2]; omega

/-- The bit-by-bit CRC of a byte keeps the accumulator a byte. -/
theorem crc8BitwiseSpec_lt (c b : Nat) (hc : c < 256) (hb : b < 256) :
    crc8BitwiseSpec c b < 256 := by
  have hx : c ^^^ b < 256 := by
    have := Nat.xor_lt_two_pow (n := 8) (show c < 2 ^ 8 from hc) (show b < 2 ^ 8 from hb)
    simpa using this
  have hiter : ∀ (n x : Nat), x < 256 → crc8BitStep^[n] x < 256 := by
    intro n
    induction n with
    | zero => intro x hx0; simpa using hx0
    | succ n ih =>
      intro x hx0
      rw [Function.iterate_succ_apply]
      exact ih _ (crc8BitStep_lt x hx0)
  exact hiter 8 _ hx

/-- The table-driven step agrees with the bit-by-bit step for every byte
accumulator and byte input: both depend only on `input XOR crc`. -/
theorem crcGenerator_eq_bitwise (c b : Nat) (hc : c < 256) (hb : b < 256) :
    crcGenerator c b = crc8BitwiseSpec c b := by
  have hx : b ^^^ c < 256 := by
    have := Nat.xor_lt_two_pow (n := 8) (show b < 2 ^ 8 from hb) (show c < 2 ^ 8 from hc)
    simpa using this
  unfold crcGenerator
  rw [crc8_table_eq_bitwise _ hx]
  unfold crc8BitwiseSpec
  rw [Nat.zero_xor, Nat.xor_comm]

/-- Folding the table-driven step over any byte list agrees with folding
the bit-by-bit reference, from any byte accumulator. -/
theorem foldl_crc_eq (l : List Nat) :
    ∀ c, c < 256 → (∀ x ∈ l, x < 256) →
      l.foldl crcGenerator c = l.foldl crc8BitwiseSpec c := by
  induction l with
  | nil => intro c _ _; rfl
  | cons a t ih =>
    intro c hc hall
    have ha : a < 256 := hall a (List.mem_cons_self a t)
    simp only [List.foldl_cons]
    rw [crcGenerator_eq_bitwise c a hc ha]
    exact ih _ (crc8BitwiseSpec_lt c a hc ha) (fun x hx => hall x (List.mem_cons_of_mem a hx))

/-- Concatenating a high byte (shifted left 8) with a low byte below 256
is addition. -/
theorem shl8_lor_eq_add (hi lo : Nat) (h : lo < 256) : (hi <<< 8) ||| lo = 256 * hi + lo := by
  apply Nat.eq_of_testBit_eq
  intro i
  rw [Nat.testBit_or, Nat.testBit_shiftLeft]
  by_cases hi8 : i < 8
  · have hmod : (256 * hi + lo) % 2 ^ 8 = lo := by
      have h256 : (256 : Nat) * hi + lo = 2 ^ 8 * hi + lo := by norm_num
      rw [h256, Nat.mul_add_mod]
      exact Nat.mod_eq_of_lt h
    have h1 : Nat.testBit lo i = Nat.testBit (256 * hi + lo) i := by
      have hmt := Nat.testBit_mod_two_pow (256 * hi + lo) 8 i
      rw [hmod] at hmt
      simpa [hi8] using hmt
    have hge : ¬(i ≥ 8) := by omega
    simp [hge, h1]
  · have hge : i ≥ 8 := by omega
    have hlo : Nat.testBit lo i = false := by
      apply Nat.testBit_lt_two_pow
      calc lo < 256 := h
        _ = 2 ^ 8 := by norm_num
        _ ≤ 2 ^ i := Nat.pow_le_pow_right (by norm_num) hge
    have hdiv : (256 * hi + lo) >>> 8 = hi := by
      rw [Nat.shiftRight_eq_div_pow]
      have h256 : (2 : Nat) ^ 8 = 256 := by norm_num
      rw [h256, Nat.mul_add_div (by norm_num), Nat.div_eq_of_lt h]
      omega
    have h2 : Nat.testBit (256 * hi + lo) i = Nat.testBit hi (i - 8) := by
      have hsr := Nat.testBit_shiftRight (x := 256 * hi + lo) (i := 8) (j := i - 8)
      rw [hdiv] at hsr
      have hidx : 8 + (i - 8) = i := by omega
      rw [hidx] at hsr
      exact hsr.symm
    simp [hge, hlo, h2]

/-- The stored temperature is the logical (zero-filling) shift: the raw
16-bit word divided by 16. -/
theorem storedTemp_eq_div (lo hi : Nat) (h : lo < 256) :
    storedTemp lo hi = (256 * hi + lo) / 16 := by
  unfold storedTemp
  rw [shl8_lor_eq_add hi lo h, Nat.shiftRight_eq_div_pow]

/-! ## Claim theorems -/

/-- Claim C1, code-bug evidence.  On the simulated bus with the four
distinct 64-bit addresses 1, 3, 7, 11, threading `searchDevices` cycles
through the same search state starting from the freshly initialized state
discovers 1, then 3, then 7, and the third cycle already sets
`done = true`: the fourth call bails out with 1 and leaves the state
untouched, so address 11 is never discovered.  (The replay branch of
`searchNext` assigns the masked byte to `bitValue` and then ORs
`bitValue << bitIndex` into the address buffer, setting a spurious bit
that a later replay in the same byte reads back.)  Moreover, on the bus
{1, 2} the devices are discovered as 2 then 1 — complete, but not in
ascending numeric order. -/
theorem C1_search_incomplete_and_unordered :
    addrVal (afterCycles (deviceBus [1, 3, 7, 11]) 1).address = 1 ∧
    addrVal (afterCycles (deviceBus [1, 3, 7, 11]) 2).address = 3 ∧
    addrVal (afterCycles (deviceBus [1, 3, 7, 11]) 3).address = 7 ∧
    (afterCycles (deviceBus [1, 3, 7, 11]) 3).done = true ∧
    (searchDevices (deviceBus [1, 3, 7, 11]) (afterCycles (deviceBus [1, 3, 7, 11]) 3)).1 = 1 ∧
    (afterCycles (deviceBus [1, 3, 7, 11]) 4) = (afterCycles (deviceBus [1, 3, 7, 11]) 3) ∧
    addrVal (afterCycles (deviceBus [1, 2]) 1).address = 2 ∧
    addrVal (afterCycles (deviceBus [1, 2]) 2).address = 1 := by
  decide

/-- Claim C2.  In every search cycle, at each bit position where the two
complement reads signal a conflict (both read low), the bit `searchNext`
chooses and writes to the bus is: 1 when the position equals the previous
cycle's `last_zero_branch`; the bit already held in `state.address` at
that position when the position is strictly before it; 0 when strictly
after.  Whenever 0 is chosen at a conflict the position becomes the new
local branch candidate (otherwise the candidate is unchanged), and the
chosen bit is stored at the position.  Moreover, for a cycle that
completes all 64 positions, the bit stored in `state.address` at every
position equals the bit that was chosen and written to the bus for that
position, and `searchNext` publishes exactly that buffer as the new
`state.address`. -/
theorem C2_conflict_choice_and_writeback :
    (∀ (oracle : Oracle) (lzb loc0 : Int) (addr0 : List Nat) (path0 : List Bool),
      addr0.length = 8 → path0.length < 64 → oracle path0 = (false, false) →
      ∃ (b : Bool) (c' : CycleCfg),
        searchStep oracle lzb { addr := addr0, loc := loc0, path := path0 } = some c' ∧
        b = (if (path0.length : Int) = lzb then true
             else if (path0.length : Int) < lzb then addrBit addr0 path0.length
             else false) ∧
        c'.path = path0 ++ [b] ∧
        c'.loc = (if b then loc0 else (path0.length : Int)) ∧
        addrBit c'.addr path0.length = b) ∧
    (∀ (oracle : Oracle) (st : OWState) (res : CycleCfg),
      st.address.length = 8 →
      searchRun oracle st.last_zero_branch 64 { addr := st.address, loc := -1, path := [] }
        = .complete res →
      (res.path.length = 64 ∧ ∀ i, i < 64 → addrBit res.addr i = res.path.getD i false) ∧
      (searchNext oracle st).2.address = res.addr) := by
  constructor
  · intro oracle lzb loc0 addr0 path0 h8 hlen hconf
    exact searchStep_conflict oracle lzb loc0 addr0 path0 h8 hlen hconf
  · intro oracle st res h8 hrun
    refine ⟨searchRun_complete_bits oracle st.last_zero_branch 64 _ res h8 (by simp)
      (fun i hi => absurd hi (by simp)) hrun, ?_⟩
    unfold searchNext
    rw [hrun]
    by_cases hl : res.loc = -1 <;> simp [hl]

/-- Claim C2 witness: the conflict rule exercised at position 0 with a
branch point at 0 (choose 1), and the completed all-ones cycle on the
fresh state. -/
theorem C2_conflict_choice_and_writeback_witness :
    (∃ (b : Bool) (c' : CycleCfg),
      searchStep (fun _ => (false, false)) 0
          { addr := List.replicate 8 0, loc := -1, path := [] } = some c' ∧
      b = (if (((List.nil : List Bool).length : Int)) = 0 then true
           else if (((List.nil : List Bool).length : Int)) < 0 then
             addrBit (List.replicate 8 0) (List.nil : List Bool).length
           else false) ∧
      c'.path = [] ++ [b] ∧
      c'.loc = (if b then -1 else (((List.nil : List Bool).length : Nat) : Int)) ∧
      addrBit c'.addr (List.nil : List Bool).length = b) ∧
    ((({ addr := List.replicate 8 255, loc := -1,
         path := List.replicate 64 true } : CycleCfg).path.length = 64 ∧
      ∀ i, i < 64 →
        addrBit ({ addr := List.replicate 8 255, loc := -1,
                   path := List.replicate 64 true } : CycleCfg).addr i
          = ({ addr := List.replicate 8 255, loc := -1,
               path := List.replicate 64 true } : CycleCfg).path.getD i false) ∧
     (searchNext (fun _ => (true, false)) onewireSearchInit).2.address
       = ({ addr := List.replicate 8 255, loc := -1,
            path := List.replicate 64 true } : CycleCfg).addr) :=
  ⟨C2_conflict_choice_and_writeback.1 (fun _ => (false, false)) 0 (-1)
      (List.replicate 8 0) [] (by decide) (by decide) rfl,
   C2_conflict_choice_and_writeback.2 (fun _ => (true, false)) onewireSearchInit
      { addr := List.replicate 8 255, loc := -1, path := List.replicate 64 true }
      (by decide) (by decide)⟩

/-- Claim C3, code-bug evidence.  On a bus where the reset detects no
presence pulse, `searchDevices` bails out with 1 without writing the
SEARCH_ROM command byte — but the `while (searchDevices(...))` loop of
`DS18B20_Search` runs its body exactly while the return value is nonzero,
so the search never terminates: for every fuel bound, from every state,
index and accumulator, the loop model returns `none`. -/
theorem C3_empty_bus_never_terminates :
    (∀ (o : Oracle) (fuel : Nat) (st : OWState) (idx : Nat) (ws : List (Nat × Nat)) (cs : Nat),
      searchLoopM { presence := false, oracle := o } fuel st idx ws cs = none) ∧
    (∀ (o : Oracle) (st : OWState),
      (searchDevices { presence := false, oracle := o } st).2.2 = false) := by
  constructor
  · intro o fuel
    induction fuel with
    | zero => intro st idx ws cs; rfl
    | succ n ih =>
      intro st idx ws cs
      simpa [searchLoopM, searchDevices] using ih st ((idx + 1) % 256) _ cs
  · intro o st
    simp [searchDevices]

/-- Claim C4, code-bug evidence.  On a bus with the single device 1, the
first (and only) search cycle does discover address 1 and completes the
search, yet `DS18B20_Search` stores nothing into the caller's array and
returns the constant 0: `searchDevices` returned 0 for the successful
cycle, so the `while` loop body never ran. -/
theorem C4_search_stores_nothing_returns_zero :
    DS18B20_Search (deviceBus [1]) 2 = some { retval := 0, writes := [], cmds := 1 } ∧
    addrVal (afterCycles (deviceBus [1]) 1).address = 1 ∧
    (afterCycles (deviceBus [1]) 1).done = true := by
  decide

/-- Claim C5, code-bug evidence.  A cycle whose first position reads
`(1,1)` aborts immediately (the fault configuration still has the empty
path), but `searchNext` returns 0 for it — the very value a successful
cycle returns — and `searchDevices` forwards that 0 in both cases,
contradicting its own comment `returns 0 if OK, 1 otherwise`; only the
done/no-presence bail-out (1) is distinguishable. -/
theorem C5_fault_equals_success_retval :
    searchRun (fun _ => (true, true)) (-1) 64
        { addr := List.replicate 8 0, loc := -1, path := [] }
      = .fault { addr := List.replicate 8 0, loc := -1, path := [] } ∧
    (searchNext (fun _ => (true, true)) onewireSearchInit).1 = 0 ∧
    (searchNext (deviceOracle [1]) onewireSearchInit).1 = 0 ∧
    (searchDevices { presence := true, oracle := fun _ => (true, true) } onewireSearchInit).1 = 0 ∧
    (searchDevices (deviceBus [1]) onewireSearchInit).1 = 0 ∧
    (searchDevices (deviceBus []) onewireSearchInit).1 = 1 := by
  decide

/-- Claim C6, code-bug evidence.  A faulting search cycle does not leave
`state.address` unmodified: with a bus that answers "all devices agree on
1" at position 0 and faults at position 1, the aborted cycle has already
set bit 0 of the address buffer.  And `DS18B20_GetTemp` discards the
result of `DS18B20_Start`: with no presence pulse it still runs the whole
sequence and stores a temperature entry (the floating-high bus reads back
0xFF bytes, giving 0x0FFF = 4095). -/
theorem C6_fault_leaves_partial_results :
    (searchNext (fun p => if p.length = 0 then (true, false) else (true, true))
        onewireSearchInit).2.address = [1, 0, 0, 0, 0, 0, 0, 0] ∧
    onewireSearchInit.address = [0, 0, 0, 0, 0, 0, 0, 0] ∧
    DS18B20_GetTemp false (fun _ => (255, 255)) [1] = [(0, 4095)] := by
  decide

/-- Claim C7.  For all 256 byte values, the table-driven step
`crcGenerator 0 b` equals the bit-by-bit Dallas/Maxim 1-Wire CRC-8 of the
single byte `b` with initial value 0, and consequently folding
`crcGenerator` over any 7-byte payload equals the bit-by-bit CRC-8 of that
payload. -/
theorem C7_table_refines_bitwise :
    (∀ b, b < 256 → crcGenerator 0 b = crc8BitwiseSpec 0 b) ∧
    (∀ payload : List Nat, payload.length = 7 → (∀ x ∈ payload, x < 256) →
      payload.foldl crcGenerator 0 = payload.foldl crc8BitwiseSpec 0) := by
  constructor
  · intro b hb
    exact crcGenerator_eq_bitwise 0 b (by norm_num) hb
  · intro payload _ hall
    exact foldl_crc_eq payload 0 (by norm_num) hall

/-- Claim C7 witness: the single byte 1 and a concrete 7-byte payload. -/
theorem C7_table_refines_bitwise_witness :
    crcGenerator 0 1 = crc8BitwiseSpec 0 1 ∧
    ([0x28, 1, 2, 3, 4, 5, 6] : List Nat).foldl crcGenerator 0
      = ([0x28, 1, 2, 3, 4, 5, 6] : List Nat).foldl crc8BitwiseSpec 0 :=
  ⟨C7_table_refines_bitwise.1 1 (by decide),
   C7_table_refines_bitwise.2 [0x28, 1, 2, 3, 4, 5, 6] (by decide) (by decide)⟩

/-- Claim C8, counterexample.  For the raw scratchpad value 0x8000 (low
byte 0, high byte 128) the code stores 0x8000 >> 4 = 2048, but the signed
(arithmetic) right shift of the 16-bit two's-complement value -32768 is
-2048, whose 16-bit pattern is 63488: the sign is not preserved. -/
theorem C8_counterexample :
    DS18B20_GetTemp true (fun _ => (0, 128)) [1] = [(0, 2048)] ∧
    toSigned16 (256 * 128 + 0) = -32768 ∧
    arithShiftR4 (-32768) = -2048 ∧
    ((2048 : Int) ≠ -2048) ∧ ((2048 : Nat) ≠ 65536 - 2048) := by
  decide

/-- Claim C8, amended.  The temperature value stored for a device is the
*logical* (zero-filling) right shift by 4 of the 16-bit raw scratchpad
word — `(256 * hi + lo) / 16` — which coincides with the signed
(arithmetic, sign-preserving) shift exactly when the sign bit is clear;
negative raw values are not sign-extended (see the counterexample).
The last conjunct ties this to `DS18B20_GetTemp`: the entry stored for a
device is `storedTemp` of the two bytes read back. -/
theorem C8_amended_logical_shift (lo hi : Nat) (hlo : lo < 256) (hhi : hi < 256) :
    storedTemp lo hi = (256 * hi + lo) / 16 ∧
    (hi < 128 → (storedTemp lo hi : Int) = arithShiftR4 (toSigned16 (256 * hi + lo))) ∧
    (∀ (presence : Bool) (scratch : Nat → Nat × Nat) (rom : Nat), rom ≠ 0 →
      DS18B20_GetTemp presence scratch [rom]
        = [(0, storedTemp (scratch 0).1 (scratch 0).2)]) := by
  refine ⟨storedTemp_eq_div lo hi hlo, ?_, ?_⟩
  · intro hneg
    have hlt : 256 * hi + lo < 32768 := by omega
    unfold toSigned16 arithShiftR4
    rw [if_pos hlt, storedTemp_eq_div lo hi hlo, Int.fdiv_eq_ediv _ (by norm_num)]
    rw [Int.ofNat_ediv]
    norm_num
  · intro presence scratch rom hrom
    simp [DS18B20_GetTemp, getTempLoop, hrom]

/-- Claim C8 witness: raw word 0x0050 (80), a positive reading. -/
theorem C8_amended_logical_shift_witness :
    storedTemp 80 0 = (256 * 0 + 80) / 16 ∧
    ((0 : Nat) < 128 → (storedTemp 80 0 : Int) = arithShiftR4 (toSigned16 (256 * 0 + 80))) ∧
    (∀ (presence : Bool) (scratch : Nat → Nat × Nat) (rom : Nat), rom ≠ 0 →
      DS18B20_GetTemp presence scratch [rom]
        = [(0, storedTemp (scratch 0).1 (scratch 0).2)]) :=
  C8_amended_logical_shift 80 0 (by decide) (by decide)

/-- Claim C9, code-bug evidence.  Packing the address whose byte 0 is 0x28
(the DS18B20 family code) and whose other bytes are 0: the spec packing
puts 0x28 into the most significant byte, but the C expression shifts an
`int`-promoted byte by 56 bits — undefined for the 32-bit intermediate,
0 on the ARM target — so the stored value is 0. -/
theorem C9_pack_drops_family_code :
    packCode [0x28, 0, 0, 0, 0, 0, 0, 0] = 0 ∧
    packSpec [0x28, 0, 0, 0, 0, 0, 0, 0] = 0x28 * 2 ^ 56 ∧
    (0 : Nat) ≠ 0x28 * 2 ^ 56 := by
  decide

/-- Claim C10.  On every bus with devices present (in particular with more
devices than the caller's capacity), `DS18B20_Search` performs no store
into the caller's array at all — the first `searchDevices` call returns 0,
ending the inverted `while` loop before its body runs — so in particular
every written index is below any capacity bound. -/
theorem C10_no_write_beyond_capacity (devices : List Nat) (cap fuel : Nat)
    (hcap : cap < devices.length) (hfuel : 1 ≤ fuel) :
    ∃ run, DS18B20_Search (deviceBus devices) fuel = some run ∧
      ∀ p ∈ run.writes, p.1 < cap := by
  obtain ⟨f, rfl⟩ : ∃ f, fuel = f + 1 := ⟨fuel - 1, by omega⟩
  have hne : devices.isEmpty = false := by
    cases devices with
    | nil => simp at hcap
    | cons a l => rfl
  refine ⟨{ retval := 0, writes := [], cmds := 1 }, ?_, by simp⟩
  simp [DS18B20_Search, searchLoopM, searchDevices, deviceBus, hne,
    onewireSearchInit, searchNext_fst]

/-- Claim C10 witness: two devices, capacity 1, fuel 1. -/
theorem C10_no_write_beyond_capacity_witness :
    ∃ run, DS18B20_Search (deviceBus [1, 2]) 1 = some run ∧
      ∀ p ∈ run.writes, p.1 < 1 :=
  C10_no_write_beyond_capacity [1, 2] 1 1 (by decide) (by decide)

end DS18B20
